import Mathlib

/-!
Verification of the hybrid recommendation core of the recommendation-service
repository, shallowly embedded in Lean.

Sources embedded here:
* `src/recommender/content_based.py` — `ContentBasedRecommender.fit`,
  `recommend_similar_businesses`, `recommend_for_user_profile`,
  `build_user_profile`;
* `src/recommender/model.py` — `get_collaborative_recommendations`,
  `get_content_recommendations`, `recommend_for_user`;
* `src/recommender/train.py` — `train_model` (its insufficient-data guard).

Modelling conventions: pandas rows become structures; `NaN`-able columns
become `Option`; Python floats become `ℚ`; a Python dict becomes an
insertion-ordered association list; the numeric kernels that the claims do
not reason about (the fitted SVD predictor, the TF-IDF vectorizer together
with `cosine_similarity`) are parameters of the embedding: a prediction
function for the collaborative model, a precomputed similarity matrix and a
profile-text similarity function for the content model.  Python's stable
sorts (`list.sort`, `sorted`, and `numpy.argsort` as the spec reads it) are
modelled by sorting position-tagged elements under a total lexicographic
order, which characterises the stable result uniquely.
-/

namespace RecService

/-- A row of the review feed: `user_id`, `business_id`, `rating`. -/
structure Review where
  user_id : String
  business_id : String
  rating : ℚ
deriving DecidableEq

/-- A row of the business feed; `category`, `description`, `city`, `rating`
may be missing (`NaN` in pandas), which we model with `Option`. -/
structure BusinessRec where
  business_id : String
  name : String
  category : Option String
  description : Option String
  city : Option String
  rating : Option ℚ
deriving DecidableEq

instance : Inhabited BusinessRec :=
  ⟨⟨"", "", none, none, none, none⟩⟩

/-- The dict returned by `build_user_profile` when the user has reviews. -/
structure UserProfile where
  preferred_categories : String
  preferred_cities : String
  interests : String
deriving DecidableEq

/-- One scored candidate row `(business_id, score, name, rating)` as passed
between the recommendation stages in `model.py`. -/
structure ScoredRec where
  business_id : String
  score : ℚ
  name : Option String
  rating : Option ℚ
deriving DecidableEq

/-- One entry of the final recommendation list (the `Business` response
model of `app/models.py`). -/
structure BusinessOut where
  business_id : String
  name : Option String
  rating : Option ℚ
  predicted_rating : ℚ
deriving DecidableEq

/-- `RecommendationResponse` of `app/models.py`. -/
structure RecommendationResponse where
  user_id : String
  recommendations : List BusinessOut
deriving DecidableEq

/-! ### Python dicts as insertion-ordered association lists -/

/-- Python `d[k]` read (first binding wins; our operations keep keys
unique, mirroring a dict). -/
def dictLookup {α : Type} (d : List (String × α)) (k : String) : Option α :=
  (d.find? (fun p => p.1 == k)).map (·.2)

/-- Python `d[k] = v`: overwrite the binding in place when the key is
bound, else append, preserving dict insertion order. -/
def dictSet {α : Type} (d : List (String × α)) (k : String) (v : α) :
    List (String × α) :=
  match d with
  | [] => [(k, v)]
  | p :: rest => if p.1 == k then (k, v) :: rest else p :: dictSet rest k v

/-- Python `d[k] = d.get(k, 0) + v` on a numeric dict: add to the binding
in place when the key is bound, else append. -/
def dictAdd (d : List (String × ℚ)) (k : String) (v : ℚ) :
    List (String × ℚ) :=
  match d with
  | [] => [(k, v)]
  | p :: rest =>
    if p.1 == k then (k, p.2 + v) :: rest else p :: dictAdd rest k v

/-- The keys of a dict, in insertion order. -/
def dictKeys {α : Type} (d : List (String × α)) : List String :=
  d.map (·.1)

/-! ### Python stable sorts -/

/-- Comparator characterising Python's stable sort `reverse=True` by a `ℚ`
key: on position-tagged elements, larger key first and, on equal keys, the
earlier position first.  This relation is a total order on any list of
distinct positions, so its sorted result is exactly the stable one. -/
def descLex {α : Type} (key : α → ℚ) : (ℕ × α) → (ℕ × α) → Prop :=
  fun p q => key q.2 < key p.2 ∨ (key p.2 = key q.2 ∧ p.1 ≤ q.1)

instance {α : Type} (key : α → ℚ) : DecidableRel (descLex key) := fun p q => by
  unfold descLex; infer_instance

instance {α : Type} (key : α → ℚ) : IsTotal (ℕ × α) (descLex key) := by
  constructor
  intro a b
  rcases lt_trichotomy (key a.2) (key b.2) with h | h | h
  · exact Or.inr (Or.inl h)
  · rcases Nat.le_total a.1 b.1 with h' | h'
    · exact Or.inl (Or.inr ⟨h, h'⟩)
    · exact Or.inr (Or.inr ⟨h.symm, h'⟩)
  · exact Or.inl (Or.inl h)

instance {α : Type} (key : α → ℚ) : IsTrans (ℕ × α) (descLex key) := by
  constructor
  intro a b c hab hbc
  rcases hab with h1 | ⟨h1, h1'⟩ <;> rcases hbc with h2 | ⟨h2, h2'⟩
  · exact Or.inl (lt_trans h2 h1)
  · exact Or.inl (h2 ▸ h1)
  · exact Or.inl (h1 ▸ h2)
  · exact Or.inr ⟨h1.trans h2, h1'.trans h2'⟩

/-- Python `sorted(l, key=key, reverse=True)` / `l.sort(key=..., reverse=True)`:
stable descending sort by a `ℚ` key. -/
def sortByKeyDesc {α : Type} (key : α → ℚ) (l : List α) : List α :=
  ((l.enum).insertionSort (descLex key)).map (·.2)

/-- Comparator characterising `numpy.argsort` read as a stable ascending
sort (the spec's reading): smaller value first, ties by original index. -/
def ascLex : (ℕ × ℚ) → (ℕ × ℚ) → Prop :=
  fun p q => p.2 < q.2 ∨ (p.2 = q.2 ∧ p.1 ≤ q.1)

instance : DecidableRel ascLex := fun p q => by
  unfold ascLex; infer_instance

instance : IsTotal (ℕ × ℚ) ascLex := by
  constructor
  intro a b
  rcases lt_trichotomy a.2 b.2 with h | h | h
  · exact Or.inl (Or.inl h)
  · rcases Nat.le_total a.1 b.1 with h' | h'
    · exact Or.inl (Or.inr ⟨h, h'⟩)
    · exact Or.inr (Or.inr ⟨h.symm, h'⟩)
  · exact Or.inr (Or.inl h)

instance : IsTrans (ℕ × ℚ) ascLex := by
  constructor
  intro a b c hab hbc
  rcases hab with h1 | ⟨h1, h1'⟩ <;> rcases hbc with h2 | ⟨h2, h2'⟩
  · exact Or.inl (lt_trans h1 h2)
  · exact Or.inl (h2 ▸ h1)
  · exact Or.inl (h1 ▸ h2)
  · exact Or.inr ⟨h1.trans h2, h1'.trans h2'⟩

/-- `sim_scores.argsort()`: indices of `scores` in ascending score order,
ties in original order. -/
def argsortAsc (scores : List ℚ) : List ℕ :=
  ((scores.enum).insertionSort ascLex).map (·.1)

/-- The slice `sim_scores.argsort()[:-top_n-1:-1]` of `content_based.py`:
the `top_n` indices of highest score, in descending score order. -/
def topIndicesDesc (scores : List ℚ) (top_n : ℕ) : List ℕ :=
  ((argsortAsc scores).reverse).take top_n

/-! ### Python float rounding -/

/-- Python's `round(x, 2)` (banker's rounding: round half to even),
idealised over exact rationals. -/
def pyRound2 (q : ℚ) : ℚ :=
  let scaled := q * 100
  let f : ℤ := ⌊scaled⌋
  let r : ℤ :=
    if scaled - (f : ℚ) < mkRat 1 2 then f
    else if mkRat 1 2 < scaled - (f : ℚ) then f + 1
    else if f % 2 = 0 then f else f + 1
  mkRat r 100

/-! ### Small pandas helpers -/

/-- `pd.Series.unique()`: distinct values, first occurrence order kept. -/
def uniqueFirstAux (seen : List String) : List String → List String
  | [] => []
  | x :: xs =>
    if x ∈ seen then uniqueFirstAux seen xs
    else x :: uniqueFirstAux (x :: seen) xs

/-- `pd.Series.unique()` starting from nothing seen. -/
def uniqueFirst (l : List String) : List String :=
  uniqueFirstAux [] l

/-- `businesses_df[businesses_df['business_id'] == bid].iloc[0]`: the first
business row with the given id, if any. -/
def resolveBusiness (businesses : List BusinessRec) (bid : String) :
    Option BusinessRec :=
  businesses.find? (fun b => b.business_id == bid)

/-- Models Python's `not s.strip()`: `s` contains nothing but whitespace. -/
def isBlank (s : String) : Bool :=
  s.data.all (fun c => c.isWhitespace)

/-! ### `content_based.py`: the fitted ContentBasedRecommender

The TF-IDF vectorizer and `cosine_similarity` are the abstracted numeric
kernel: a fitted model carries the fit-time business rows (in corpus
order), the precomputed business-to-business cosine similarity matrix, and
the profile-text-to-business similarity function. -/
structure ContentModel where
  profiles : List BusinessRec
  simMatrix : List (List ℚ)
  profileSim : String → List ℚ

/-- Shape invariant of a fitted index: one similarity score per indexed
business, one matrix row per indexed business. -/
def ContentModel.WF (m : ContentModel) : Prop :=
  m.simMatrix.length = m.profiles.length ∧
  (∀ row ∈ m.simMatrix, row.length = m.profiles.length) ∧
  (∀ s, (m.profileSim s).length = m.profiles.length)

/-- The `fillna` steps of `ContentBasedRecommender.fit` (lines 36-38):
missing description becomes `''`, missing category and city become
`'Unknown'`. -/
def fillMissing (b : BusinessRec) : BusinessRec :=
  { b with
    description := some (b.description.getD "")
    category := some (b.category.getD "Unknown")
    city := some (b.city.getD "Unknown") }

/-- The combined text field of `fit` (line 41):
`name + ' ' + category + ' ' + description + ' ' + city`. -/
def contentText (b : BusinessRec) : String :=
  b.name ++ " " ++ b.category.getD "" ++ " " ++ b.description.getD "" ++
    " " ++ b.city.getD ""

/-- The corpus of text documents that `fit` hands to the vectorizer, one
per business row. -/
def fitCorpus (businesses : List BusinessRec) : List String :=
  businesses.map (fun b => contentText (fillMissing b))

/-- The `business_indices` lookup of the fitted model: the fit-time row
index of a business id, `none` when the id was not indexed. -/
def businessIndex (m : ContentModel) (bid : String) : Option ℕ :=
  (m.profiles.map (·.business_id)).findIdx? (· == bid)

/-- `ContentBasedRecommender.recommend_similar_businesses`: the top
`top_n` similarity indices are computed first, the query business is
dropped from them afterwards, and the survivors map back to
`(business_id, score)` pairs. -/
def recommend_similar_businesses (m : ContentModel) (business_id : String)
    (top_n : ℕ) : List (String × ℚ) :=
  match businessIndex m business_id with
  | none => []
  | some idx =>
    let sim_scores := m.simMatrix.getD idx []
    let similar_indices :=
      ((topIndicesDesc sim_scores top_n).filter (fun i => i ≠ idx)).take top_n
    similar_indices.map
      (fun i => ((m.profiles.getD i default).business_id, sim_scores.getD i 0))

/-- The profile text `' '.join([...])` built by
`recommend_for_user_profile` from the profile dict. -/
def profileContent (p : UserProfile) : String :=
  p.preferred_categories ++ " " ++ p.preferred_cities ++ " " ++ p.interests

/-- `ContentBasedRecommender.recommend_for_user_profile`; an empty profile
dict is `none`.  No business (in particular no already-rated one) is
excluded from the ranking. -/
def recommend_for_user_profile (m : ContentModel)
    (user_profile : Option UserProfile) (top_n : ℕ) : List (String × ℚ) :=
  match user_profile with
  | none => []
  | some p =>
    let content := profileContent p
    if isBlank content then []
    else
      let sim_scores := m.profileSim content
      (topIndicesDesc sim_scores top_n).map
        (fun i => ((m.profiles.getD i default).business_id, sim_scores.getD i 0))

/-- One iteration of the review loop of `build_user_profile` (lines
182-199): resolve the business, then add the review's rating to the
weights of its category and its city, skipping missing values. -/
def profileStep (businesses : List BusinessRec)
    (st : List (String × ℚ) × List (String × ℚ)) (r : Review) :
    List (String × ℚ) × List (String × ℚ) :=
  match resolveBusiness businesses r.business_id with
  | none => st
  | some b =>
    let cats := match b.category with
      | some c => dictAdd st.1 c r.rating
      | none => st.1
    let cities := match b.city with
      | some c => dictAdd st.2 c r.rating
      | none => st.2
    (cats, cities)

/-- `build_user_profile` of `content_based.py`: the empty dict returned for
a user without reviews is `none`. -/
def build_user_profile (user_id : String) (reviews : List Review)
    (businesses : List BusinessRec) : Option UserProfile :=
  let user_reviews := reviews.filter (fun r => r.user_id == user_id)
  if user_reviews.isEmpty then none
  else
    let reviewed := businesses.filter
      (fun b => user_reviews.any (fun r => r.business_id == b.business_id))
    let categories := reviewed.filterMap (·.category)
    let weighted := user_reviews.foldl (profileStep businesses) ([], [])
    some
      { preferred_categories :=
          " ".intercalate ((sortByKeyDesc (·.2) weighted.1).map (·.1))
        preferred_cities :=
          " ".intercalate ((sortByKeyDesc (·.2) weighted.2).map (·.1))
        interests := " ".intercalate categories }

/-! ### `model.py`: the hybrid ranker -/

/-- The fitted collaborative model, abstracted to its prediction function
(`model.predict(user_id, biz).est`). -/
structure CFModel where
  predict : String → String → ℚ

/-- `get_collaborative_recommendations`: candidates are the unrated
business ids; each is scored by the predictor, decorated with name and
rating, sorted by score descending, truncated to `top_n`.  A missing model
(`none`) degrades to no results. -/
def get_collaborative_recommendations (cf : Option CFModel)
    (reviews : List Review) (businesses : List BusinessRec)
    (user_id : String) (top_n : ℕ) : List ScoredRec :=
  match cf with
  | none => []
  | some model =>
    if reviews.isEmpty || businesses.isEmpty then []
    else
      let rated := uniqueFirst
        ((reviews.filter (fun r => r.user_id == user_id)).map (·.business_id))
      let all_biz := uniqueFirst (businesses.map (·.business_id))
      let candidates := all_biz.filter (fun b => !(rated.contains b))
      if candidates.isEmpty then []
      else
        let predictions := candidates.filterMap (fun biz =>
          (resolveBusiness businesses biz).map (fun bd =>
            ScoredRec.mk biz (model.predict user_id biz) (some bd.name) bd.rating))
        (sortByKeyDesc (·.score) predictions).take top_n

/-- `get_content_recommendations`: build the user profile, rank by profile
similarity, decorate each returned id that resolves in the business feed.
A missing model or an empty profile degrades to no results. -/
def get_content_recommendations (cm : Option ContentModel)
    (reviews : List Review) (businesses : List BusinessRec)
    (user_id : String) (top_n : ℕ) : List ScoredRec :=
  match cm with
  | none => []
  | some m =>
    if reviews.isEmpty || businesses.isEmpty then []
    else
      match build_user_profile user_id reviews businesses with
      | none => []
      | some prof =>
        let cb_recs := recommend_for_user_profile m (some prof) top_n
        cb_recs.filterMap (fun pr =>
          (resolveBusiness businesses pr.1).map (fun bd =>
            ScoredRec.mk pr.1 pr.2 (some bd.name) bd.rating))

/-- The collaborative loop of the merge (lines 194-196):
`combined_scores[biz] = 0.7 * score`, `business_data[biz] = (name, rating)`. -/
def cfMergeStep
    (st : List (String × ℚ) × List (String × (Option String × Option ℚ)))
    (r : ScoredRec) :
    List (String × ℚ) × List (String × (Option String × Option ℚ)) :=
  (dictSet st.1 r.business_id (mkRat 7 10 * r.score),
   dictSet st.2 r.business_id (r.name, r.rating))

/-- The content loop of the merge (lines 199-204): add `0.3 * score` to an
id already scored, else insert it fresh together with its metadata. -/
def cbMergeStep
    (st : List (String × ℚ) × List (String × (Option String × Option ℚ)))
    (r : ScoredRec) :
    List (String × ℚ) × List (String × (Option String × Option ℚ)) :=
  match dictLookup st.1 r.business_id with
  | some v => (dictSet st.1 r.business_id (v + mkRat 3 10 * r.score), st.2)
  | none =>
    (st.1 ++ [(r.business_id, mkRat 3 10 * r.score)],
     dictSet st.2 r.business_id (r.name, r.rating))

/-- `recommend_for_user` of `model.py`: over-fetch both stages at
`2 * top_n`, merge with the fixed 0.7/0.3 weights, sort by combined score
descending, truncate to `top_n`, round scores to 2 decimals. -/
def recommend_for_user (cf : Option CFModel) (cm : Option ContentModel)
    (reviews : List Review) (businesses : List BusinessRec)
    (user_id : String) (top_n : ℕ) : RecommendationResponse :=
  let cf_recommendations :=
    get_collaborative_recommendations cf reviews businesses user_id (top_n * 2)
  let cb_recommendations :=
    get_content_recommendations cm reviews businesses user_id (top_n * 2)
  if cf_recommendations.isEmpty && cb_recommendations.isEmpty then
    ⟨user_id, []⟩
  else
    let st :=
      cb_recommendations.foldl cbMergeStep
        (cf_recommendations.foldl cfMergeStep ([], []))
    if st.1.isEmpty then ⟨user_id, []⟩
    else
      let sorted_recommendations := (sortByKeyDesc (·.2) st.1).take top_n
      ⟨user_id,
        sorted_recommendations.map (fun pr =>
          let nr := (dictLookup st.2 pr.1).getD (none, none)
          BusinessOut.mk pr.1 nr.1 nr.2 (pyRound2 pr.2))⟩

/-! ### `train.py`: the insufficient-data guard of `train_model` -/

/-- How one call of `train_model` ends, as seen by its caller: a normal
return (with or without freshly fitted and saved models), or a propagated
exception.  The feed loading, the SVD fit and the disk writes are the
abstracted periphery; the embedded logic is the volume guard of lines
74-77, which plainly `return`s below threshold. -/
inductive TrainResult where
  | completed (fitted : Bool)
  | raised (msg : String)
deriving DecidableEq

/-- Whether the outcome signals a failure to the caller. -/
def TrainResult.isFailure : TrainResult → Bool
  | completed _ => false
  | raised _ => true

/-- `train_model` of `train.py` on in-memory feeds: fewer than 10 reviews
or fewer than 5 businesses short-circuits with a plain return before any
model is fitted or saved; otherwise both models are fitted and saved. -/
def train_model (reviews : List Review) (businesses : List BusinessRec) :
    TrainResult :=
  if reviews.length < 10 || businesses.length < 5 then
    TrainResult.completed false
  else TrainResult.completed true

/-! ### Reference definitions taken from the spec's words (for the
refinement-style claims about `build_user_profile`) -/

/-- The reviews of one user, in feed order. -/
def userReviews (user_id : String) (reviews : List Review) : List Review :=
  reviews.filter (fun r => r.user_id == user_id)

/-- The category a review contributes to, per the spec: join the review to
its business record by id, skip unresolvable reviews, skip a missing
category. -/
def specCatOf (businesses : List BusinessRec) (r : Review) : Option String :=
  (resolveBusiness businesses r.business_id).bind (·.category)

/-- The city a review contributes to, per the spec. -/
def specCityOf (businesses : List BusinessRec) (r : Review) : Option String :=
  (resolveBusiness businesses r.business_id).bind (·.city)

/-- Modelled from the spec: the accumulated weight of a category is the sum
of the ratings the user gave to resolvable businesses of that category. -/
def specCatWeight (user_id : String) (reviews : List Review)
    (businesses : List BusinessRec) (c : String) : ℚ :=
  (((userReviews user_id reviews).filter
      (fun r => specCatOf businesses r == some c)).map (·.rating)).sum

/-- Modelled from the spec: the accumulated weight of a city. -/
def specCityWeight (user_id : String) (reviews : List Review)
    (businesses : List BusinessRec) (c : String) : ℚ :=
  (((userReviews user_id reviews).filter
      (fun r => specCityOf businesses r == some c)).map (·.rating)).sum

/-- The collaborative (or content) score of a business id within a stage
result list: the score of its first occurrence, `0` when absent. -/
def scoreOf (l : List ScoredRec) (bid : String) : ℚ :=
  match l.find? (fun r => r.business_id == bid) with
  | some r => r.score
  | none => 0

/-- The total rating contribution of a review list to one category. -/
def catContrib (businesses : List BusinessRec) (c : String)
    (rs : List Review) : ℚ :=
  ((rs.filter (fun r => specCatOf businesses r == some c)).map (·.rating)).sum

/-- The total rating contribution of a review list to one city. -/
def cityContrib (businesses : List BusinessRec) (c : String)
    (rs : List Review) : ℚ :=
  ((rs.filter (fun r => specCityOf businesses r == some c)).map (·.rating)).sum

/-! ### Concrete feeds and fitted models used to instantiate the theorems -/

/-- A one-review feed: user `U1` rated business `B1` with 5 stars. -/
def reviewsEx : List Review := [⟨"U1", "B1", 5⟩]

/-- A two-business feed. -/
def businessesEx : List BusinessRec :=
  [⟨"B1", "Cafe", some "Food", none, some "CityA", some 4⟩,
   ⟨"B2", "Gym", some "Fitness", none, some "CityB", some 3⟩]

/-- A collaborative model predicting the constant rating 3. -/
def cfEx : Option CFModel := some ⟨fun _ _ => 3⟩

/-- A content model over `businessesEx` whose profile similarity ranks `B1`
(the rated business, which matches the user profile) far above `B2`. -/
def cmEx : Option ContentModel :=
  some ⟨businessesEx, [[1, 0], [0, 1]], fun _ => [mkRat 9 10, mkRat 1 10]⟩

/-- A three-business content index whose similarity matrix makes `B1` and
`B2` the businesses nearest to `B0` (after `B0` itself). -/
def cmSim : ContentModel :=
  ⟨[⟨"B0", "A", none, none, none, none⟩, ⟨"B1", "B", none, none, none, none⟩,
    ⟨"B2", "C", none, none, none, none⟩],
   [[1, mkRat 9 10, mkRat 4 5], [mkRat 9 10, 1, mkRat 1 2],
    [mkRat 4 5, mkRat 1 2, 1]],
   fun _ => [0, 0, 0]⟩

/-- A three-business content index whose profile similarity gives `T0` and
`T1` (fit-time indices 0 and 1) exactly equal scores. -/
def cmTie : ContentModel :=
  ⟨[⟨"T0", "A", none, none, none, none⟩, ⟨"T1", "B", none, none, none, none⟩,
    ⟨"T2", "C", none, none, none, none⟩],
   [[1, 1, 0], [1, 1, 0], [0, 0, 1]],
   fun _ => [mkRat 1 2, mkRat 1 2, mkRat 9 10]⟩

/-- A nonempty user profile for querying `cmTie`. -/
def pTie : UserProfile := ⟨"Food", "CityA", "Food"⟩

/-- A business row with every optional field missing. -/
def bMissing : BusinessRec := ⟨"BX", "Name", none, none, none, none⟩

/-- A three-review feed: `U1` rated `B1` with 2 and `B2` with 5; `U2` rated
`B1` with 4. -/
def reviewsB : List Review :=
  [⟨"U1", "B1", 2⟩, ⟨"U1", "B2", 5⟩, ⟨"U2", "B1", 4⟩]

/-! ## Association-list (Python dict) lemmas -/

theorem dictLookup_nil {α : Type} (k : String) :
    dictLookup ([] : List (String × α)) k = none := rfl

theorem dictLookup_cons {α : Type} (p : String × α) (d : List (String × α))
    (k : String) :
    dictLookup (p :: d) k = if p.1 = k then some p.2 else dictLookup d k := by
  by_cases h : p.1 = k
  · simp [dictLookup, List.find?_cons_of_pos, h]
  · simp [dictLookup, List.find?_cons_of_neg, h]

theorem dictKeys_cons {α : Type} (p : String × α) (d : List (String × α)) :
    dictKeys (p :: d) = p.1 :: dictKeys d := rfl

theorem dictLookup_dictSet {α : Type} (d : List (String × α)) (k k' : String)
    (v : α) :
    dictLookup (dictSet d k v) k' = if k' = k then some v else dictLookup d k' := by
  induction d with
  | nil =>
    rcases eq_or_ne k' k with h | h
    · simp [dictSet, dictLookup_cons, h]
    · simp [dictSet, dictLookup_cons, dictLookup_nil, h, Ne.symm h]
  | cons p rest ih =>
    by_cases hp : p.1 = k
    · rcases eq_or_ne k' k with h | h
      · simp [dictSet, hp, dictLookup_cons, h]
      · simp [dictSet, hp, dictLookup_cons, h, Ne.symm h]
    · have hp' : (p.1 == k) = false := by simp [hp]
      by_cases h : k' = k
      · subst h
        simp [dictSet, hp', dictLookup_cons, hp, ih]
      · simp [dictSet, hp', dictLookup_cons, ih, h]

theorem dictLookup_dictAdd (d : List (String × ℚ)) (k k' : String) (v : ℚ) :
    dictLookup (dictAdd d k v) k' =
      if k' = k then some ((dictLookup d k).getD 0 + v) else dictLookup d k' := by
  induction d with
  | nil =>
    rcases eq_or_ne k' k with h | h
    · simp [dictAdd, dictLookup_cons, dictLookup_nil, h]
    · simp [dictAdd, dictLookup_cons, dictLookup_nil, h, Ne.symm h]
  | cons p rest ih =>
    by_cases hp : p.1 = k
    · rcases eq_or_ne k' k with h | h
      · simp [dictAdd, hp, dictLookup_cons, h]
      · simp [dictAdd, hp, dictLookup_cons, h, Ne.symm h]
    · have hp' : (p.1 == k) = false := by simp [hp]
      by_cases h : k' = k
      · subst h
        simp [dictAdd, hp', dictLookup_cons, hp, ih]
      · simp [dictAdd, hp', dictLookup_cons, ih, h]

theorem dictKeys_dictSet {α : Type} (d : List (String × α)) (k : String)
    (v : α) :
    dictKeys (dictSet d k v) =
      if k ∈ dictKeys d then dictKeys d else dictKeys d ++ [k] := by
  induction d with
  | nil => simp [dictSet, dictKeys]
  | cons p rest ih =>
    by_cases hp : p.1 = k
    · rw [dictSet, if_pos (by simp [hp]), dictKeys_cons, dictKeys_cons,
        if_pos (by rw [hp]; exact List.mem_cons_self _ _)]
      simp [hp]
    · have hmem : (k ∈ dictKeys (p :: rest)) ↔ k ∈ dictKeys rest := by
        simp [dictKeys_cons, Ne.symm hp]
      rw [dictSet, if_neg (by simp [hp]), dictKeys_cons, ih]
      by_cases h : k ∈ dictKeys rest
      · rw [if_pos h, if_pos (hmem.2 h), dictKeys_cons]
      · rw [if_neg h, if_neg (fun hc => h (hmem.1 hc)), dictKeys_cons,
          List.cons_append]

theorem dictKeys_dictAdd (d : List (String × ℚ)) (k : String) (v : ℚ) :
    dictKeys (dictAdd d k v) =
      if k ∈ dictKeys d then dictKeys d else dictKeys d ++ [k] := by
  induction d with
  | nil => simp [dictAdd, dictKeys]
  | cons p rest ih =>
    by_cases hp : p.1 = k
    · rw [dictAdd, if_pos (by simp [hp]), dictKeys_cons, dictKeys_cons,
        if_pos (by rw [hp]; exact List.mem_cons_self _ _)]
      simp [hp]
    · have hmem : (k ∈ dictKeys (p :: rest)) ↔ k ∈ dictKeys rest := by
        simp [dictKeys_cons, Ne.symm hp]
      rw [dictAdd, if_neg (by simp [hp]), dictKeys_cons, ih]
      by_cases h : k ∈ dictKeys rest
      · rw [if_pos h, if_pos (hmem.2 h), dictKeys_cons]
      · rw [if_neg h, if_neg (fun hc => h (hmem.1 hc)), dictKeys_cons,
          List.cons_append]

theorem nodup_dictSet {α : Type} (d : List (String × α)) (k : String) (v : α)
    (h : (dictKeys d).Nodup) : (dictKeys (dictSet d k v)).Nodup := by
  rw [dictKeys_dictSet]
  by_cases hk : k ∈ dictKeys d
  · simpa [hk]
  · simp [hk, List.nodup_append, h]

theorem nodup_dictAdd (d : List (String × ℚ)) (k : String) (v : ℚ)
    (h : (dictKeys d).Nodup) : (dictKeys (dictAdd d k v)).Nodup := by
  rw [dictKeys_dictAdd]
  by_cases hk : k ∈ dictKeys d
  · simpa [hk]
  · simp [hk, List.nodup_append, h]

theorem dictLookup_eq_none_iff {α : Type} (d : List (String × α)) (k : String) :
    dictLookup d k = none ↔ k ∉ dictKeys d := by
  induction d with
  | nil => simp [dictLookup_nil, dictKeys]
  | cons p rest ih =>
    rw [dictLookup_cons, dictKeys_cons]
    by_cases h : p.1 = k
    · simp [h]
    · simp [h, Ne.symm h, ih]

theorem dictLookup_of_mem {α : Type} {d : List (String × α)} {p : String × α}
    (hnd : (dictKeys d).Nodup) (hp : p ∈ d) : dictLookup d p.1 = some p.2 := by
  induction d with
  | nil => cases hp
  | cons q rest ih =>
    rw [dictKeys_cons, List.nodup_cons] at hnd
    rcases List.mem_cons.1 hp with rfl | hmem
    · simp [dictLookup_cons]
    · have hne : q.1 ≠ p.1 := by
        intro h
        exact hnd.1 (by rw [h]; exact List.mem_map_of_mem (fun x => x.1) hmem)
      rw [dictLookup_cons, if_neg hne]
      exact ih hnd.2 hmem

/-! ## Stable-sort lemmas -/

theorem sortByKeyDesc_perm {α : Type} (key : α → ℚ) (l : List α) :
    List.Perm (sortByKeyDesc key l) l := by
  have h1 : List.Perm ((l.enum).insertionSort (descLex key)) l.enum :=
    List.perm_insertionSort _ _
  have h2 := h1.map (·.2)
  simpa [List.enum_map_snd] using h2

theorem sortByKeyDesc_pairwise {α : Type} (key : α → ℚ) (l : List α) :
    (sortByKeyDesc key l).Pairwise (fun a b => key b ≤ key a) := by
  have hs := List.sorted_insertionSort (descLex key) l.enum
  refine List.Pairwise.map (·.2) ?_ hs
  intro a b hab
  rcases hab with h | ⟨h, _⟩
  · exact le_of_lt h
  · exact le_of_eq h.symm

theorem argsortAsc_perm (scores : List ℚ) :
    List.Perm (argsortAsc scores) (List.range scores.length) := by
  have h1 : List.Perm ((scores.enum).insertionSort ascLex) scores.enum :=
    List.perm_insertionSort _ _
  have h2 := h1.map (·.1)
  simpa [List.enum_map_fst] using h2

theorem argsortAsc_nodup (scores : List ℚ) : (argsortAsc scores).Nodup :=
  ((argsortAsc_perm scores).nodup_iff).2 (List.nodup_range _)

theorem mem_argsortAsc_lt {scores : List ℚ} {i : ℕ}
    (h : i ∈ argsortAsc scores) : i < scores.length := by
  have := (argsortAsc_perm scores).mem_iff.1 h
  simpa using this

theorem topIndicesDesc_nodup (scores : List ℚ) (top_n : ℕ) :
    (topIndicesDesc scores top_n).Nodup :=
  (List.take_sublist _ _).nodup (List.nodup_reverse.2 (argsortAsc_nodup scores))

theorem mem_topIndicesDesc_lt {scores : List ℚ} {top_n i : ℕ}
    (h : i ∈ topIndicesDesc scores top_n) : i < scores.length := by
  have h1 : i ∈ (argsortAsc scores).reverse :=
    (List.take_sublist _ _).mem h
  exact mem_argsortAsc_lt (List.mem_reverse.1 h1)

theorem topIndicesDesc_length_le (scores : List ℚ) (top_n : ℕ) :
    (topIndicesDesc scores top_n).length ≤ top_n := by
  simp [topIndicesDesc]

theorem argsortAsc_pairwise (scores : List ℚ) :
    (argsortAsc scores).Pairwise (fun i j =>
      scores.getD i 0 < scores.getD j 0 ∨
        (scores.getD i 0 = scores.getD j 0 ∧ i < j)) := by
  have hs := List.sorted_insertionSort ascLex scores.enum
  have hperm : List.Perm ((scores.enum).insertionSort ascLex) scores.enum :=
    List.perm_insertionSort _ _
  have hnd : ((scores.enum).insertionSort ascLex).Pairwise
      (fun p q : ℕ × ℚ => p.1 ≠ q.1) := by
    have : (((scores.enum).insertionSort ascLex).map (·.1)).Nodup := by
      rw [(hperm.map (·.1)).nodup_iff]
      simpa [List.enum_map_fst] using List.nodup_range scores.length
    exact List.pairwise_map.1 this
  have hmem : ∀ p ∈ (scores.enum).insertionSort ascLex,
      scores.getD p.1 0 = p.2 := by
    intro p hp
    have hp' : p ∈ scores.enum := hperm.mem_iff.1 hp
    have := List.mem_enum_iff_getElem?.1 hp'
    simp [List.getD_eq_getElem?_getD, this]
  have hcomb := (List.Pairwise.and hs hnd)
  refine List.pairwise_map.2 (List.Pairwise.imp_of_mem ?_ hcomb)
  intro p q hp hq hpq
  rcases hpq with ⟨h | ⟨heq, hle⟩, hne⟩
  · exact Or.inl (by rw [hmem p hp, hmem q hq]; exact h)
  · exact Or.inr ⟨by rw [hmem p hp, hmem q hq]; exact heq,
      lt_of_le_of_ne hle hne⟩

theorem topIndicesDesc_pairwise (scores : List ℚ) (top_n : ℕ) :
    (topIndicesDesc scores top_n).Pairwise (fun i j =>
      scores.getD j 0 < scores.getD i 0 ∨
        (scores.getD i 0 = scores.getD j 0 ∧ j < i)) := by
  have h1 := argsortAsc_pairwise scores
  have h2 : ((argsortAsc scores).reverse).Pairwise (fun i j =>
      scores.getD j 0 < scores.getD i 0 ∨
        (scores.getD i 0 = scores.getD j 0 ∧ j < i)) := by
    rw [List.pairwise_reverse]
    exact h1.imp (fun h => by
      rcases h with h | ⟨h, h'⟩
      · exact Or.inl h
      · exact Or.inr ⟨h.symm, h'⟩)
  exact h2.sublist (List.take_sublist _ _)

/-! ## `uniqueFirst` lemmas -/

theorem mem_uniqueFirstAux (x : String) :
    ∀ (l seen : List String),
      x ∈ uniqueFirstAux seen l ↔ x ∈ l ∧ x ∉ seen := by
  intro l
  induction l with
  | nil => intro seen; simp [uniqueFirstAux]
  | cons y ys ih =>
    intro seen
    by_cases hy : y ∈ seen
    · rw [uniqueFirstAux, if_pos hy, ih]
      constructor
      · rintro ⟨h1, h2⟩
        exact ⟨List.mem_cons_of_mem _ h1, h2⟩
      · rintro ⟨h1, h2⟩
        rcases List.mem_cons.1 h1 with rfl | h1
        · exact absurd hy h2
        · exact ⟨h1, h2⟩
    · rw [uniqueFirstAux, if_neg hy]
      simp only [List.mem_cons, ih]
      constructor
      · rintro (rfl | ⟨h1, h2⟩)
        · exact ⟨Or.inl rfl, hy⟩
        · exact ⟨Or.inr h1, fun hc => h2 (Or.inr hc)⟩
      · rintro ⟨rfl | h1, h2⟩
        · exact Or.inl rfl
        · by_cases hxy : x = y
          · exact Or.inl hxy
          · refine Or.inr ⟨h1, fun hc => ?_⟩
            rcases hc with h | h
            · exact hxy h
            · exact h2 h

theorem mem_uniqueFirst (x : String) (l : List String) :
    x ∈ uniqueFirst l ↔ x ∈ l := by
  simp [uniqueFirst, mem_uniqueFirstAux]

/-! ## Append lemmas for the fresh-insert branch of the merge -/

theorem dictLookup_append_single {α : Type} (d : List (String × α))
    (k k' : String) (v : α) :
    dictLookup (d ++ [(k, v)]) k' =
      match dictLookup d k' with
      | some w => some w
      | none => if k' = k then some v else none := by
  induction d with
  | nil =>
    rcases eq_or_ne k' k with h | h
    · simp [dictLookup_nil, dictLookup_cons, h]
    · simp [dictLookup_nil, dictLookup_cons, h, Ne.symm h]
  | cons p rest ih =>
    by_cases hp : p.1 = k'
    · simp [dictLookup_cons, hp]
    · simp only [List.cons_append, dictLookup_cons, if_neg hp]
      exact ih

theorem dictKeys_append_single {α : Type} (d : List (String × α))
    (k : String) (v : α) :
    dictKeys (d ++ [(k, v)]) = dictKeys d ++ [k] := by
  simp [dictKeys]

/-! ## The merge folds of `recommend_for_user` -/

theorem cfMergeStep_lookup_ne (st : List (String × ℚ) ×
    List (String × (Option String × Option ℚ))) (r : ScoredRec) (k : String)
    (h : r.business_id ≠ k) :
    dictLookup (cfMergeStep st r).1 k = dictLookup st.1 k := by
  simp [cfMergeStep, dictLookup_dictSet, Ne.symm h]

theorem cbMergeStep_lookup_ne (st : List (String × ℚ) ×
    List (String × (Option String × Option ℚ))) (r : ScoredRec) (k : String)
    (h : r.business_id ≠ k) :
    dictLookup (cbMergeStep st r).1 k = dictLookup st.1 k := by
  unfold cbMergeStep
  cases hl : dictLookup st.1 r.business_id
  · simp only []
    rw [dictLookup_append_single]
    cases h' : dictLookup st.1 k
    · simp [Ne.symm h]
    · simp
  · simp [dictLookup_dictSet, Ne.symm h]

theorem cfFold_lookup_not_mem (l : List ScoredRec) :
    ∀ (st : List (String × ℚ) ×
      List (String × (Option String × Option ℚ))) (k : String),
    (∀ r ∈ l, r.business_id ≠ k) →
    dictLookup (l.foldl cfMergeStep st).1 k = dictLookup st.1 k := by
  induction l with
  | nil => intro st k _; rfl
  | cons a l' ih =>
    intro st k h
    rw [List.foldl_cons, ih _ k (fun r hr => h r (List.mem_cons_of_mem _ hr))]
    exact cfMergeStep_lookup_ne st a k (h a (List.mem_cons_self _ _))

theorem cbFold_lookup_not_mem (l : List ScoredRec) :
    ∀ (st : List (String × ℚ) ×
      List (String × (Option String × Option ℚ))) (k : String),
    (∀ r ∈ l, r.business_id ≠ k) →
    dictLookup (l.foldl cbMergeStep st).1 k = dictLookup st.1 k := by
  induction l with
  | nil => intro st k _; rfl
  | cons a l' ih =>
    intro st k h
    rw [List.foldl_cons, ih _ k (fun r hr => h r (List.mem_cons_of_mem _ hr))]
    exact cbMergeStep_lookup_ne st a k (h a (List.mem_cons_self _ _))

theorem cfFold_lookup_found (l : List ScoredRec) :
    ∀ (st : List (String × ℚ) ×
      List (String × (Option String × Option ℚ))) (k : String) (r : ScoredRec),
    (l.map (·.business_id)).Nodup →
    l.find? (fun r => r.business_id == k) = some r →
    dictLookup (l.foldl cfMergeStep st).1 k = some (mkRat 7 10 * r.score) := by
  induction l with
  | nil => intro st k r _ hfind; simp at hfind
  | cons a l' ih =>
    intro st k r hnd hfind
    rw [List.map_cons, List.nodup_cons] at hnd
    by_cases ha : a.business_id = k
    · have hra : r = a := by
        rw [List.find?_cons_of_pos _ (by simp [ha])] at hfind
        exact (Option.some.inj hfind).symm
      subst hra
      rw [List.foldl_cons]
      rw [cfFold_lookup_not_mem l' _ k (fun s hs hsk => hnd.1
        (by rw [ha, ← hsk]; exact List.mem_map_of_mem _ hs))]
      simp [cfMergeStep, dictLookup_dictSet, ha]
    · rw [List.find?_cons_of_neg _ (by simp [ha])] at hfind
      rw [List.foldl_cons]
      exact ih _ k r hnd.2 hfind

theorem cbFold_lookup_found (l : List ScoredRec) :
    ∀ (st : List (String × ℚ) ×
      List (String × (Option String × Option ℚ))) (k : String) (r : ScoredRec),
    (l.map (·.business_id)).Nodup →
    l.find? (fun r => r.business_id == k) = some r →
    dictLookup (l.foldl cbMergeStep st).1 k =
      match dictLookup st.1 k with
      | some v => some (v + mkRat 3 10 * r.score)
      | none => some (mkRat 3 10 * r.score) := by
  induction l with
  | nil => intro st k r _ hfind; simp at hfind
  | cons a l' ih =>
    intro st k r hnd hfind
    rw [List.map_cons, List.nodup_cons] at hnd
    by_cases ha : a.business_id = k
    · have hra : r = a := by
        rw [List.find?_cons_of_pos _ (by simp [ha])] at hfind
        exact (Option.some.inj hfind).symm
      subst hra
      rw [List.foldl_cons]
      rw [cbFold_lookup_not_mem l' _ k (fun s hs hsk => hnd.1
        (by rw [ha, ← hsk]; exact List.mem_map_of_mem _ hs))]
      unfold cbMergeStep
      cases hl : dictLookup st.1 r.business_id
      · simp only []
        rw [dictLookup_append_single]
        rw [ha] at hl
        simp [hl, ha]
      · simp only []
        rw [ha] at hl
        simp [dictLookup_dictSet, ha, hl]
    · rw [List.find?_cons_of_neg _ (by simp [ha])] at hfind
      rw [List.foldl_cons]
      rw [ih _ k r hnd.2 hfind, cbMergeStep_lookup_ne st a k ha]

theorem cfFold_keys_nodup (l : List ScoredRec) :
    ∀ (st : List (String × ℚ) ×
      List (String × (Option String × Option ℚ))),
    (dictKeys st.1).Nodup →
    (dictKeys (l.foldl cfMergeStep st).1).Nodup := by
  induction l with
  | nil => intro st h; exact h
  | cons a l' ih =>
    intro st h
    rw [List.foldl_cons]
    exact ih _ (nodup_dictSet _ _ _ h)

theorem cbFold_keys_nodup (l : List ScoredRec) :
    ∀ (st : List (String × ℚ) ×
      List (String × (Option String × Option ℚ))),
    (dictKeys st.1).Nodup →
    (dictKeys (l.foldl cbMergeStep st).1).Nodup := by
  induction l with
  | nil => intro st h; exact h
  | cons a l' ih =>
    intro st h
    rw [List.foldl_cons]
    refine ih _ ?_
    unfold cbMergeStep
    cases hl : dictLookup st.1 a.business_id
    · simp only []
      rw [dictKeys_append_single]
      have : a.business_id ∉ dictKeys st.1 :=
        (dictLookup_eq_none_iff _ _).1 hl
      simp [List.nodup_append, h, this]
    · simp only []
      exact nodup_dictSet _ _ _ h

theorem cfFold_keys_mem (l : List ScoredRec) :
    ∀ (st : List (String × ℚ) ×
      List (String × (Option String × Option ℚ))) (k : String),
    k ∈ dictKeys (l.foldl cfMergeStep st).1 →
    k ∈ dictKeys st.1 ∨ k ∈ l.map (·.business_id) := by
  induction l with
  | nil => intro st k h; exact Or.inl h
  | cons a l' ih =>
    intro st k h
    rw [List.foldl_cons] at h
    rcases ih _ k h with h' | h'
    · rw [cfMergeStep] at h'
      rw [dictKeys_dictSet] at h'
      by_cases hm : a.business_id ∈ dictKeys st.1
      · rw [if_pos hm] at h'
        exact Or.inl h'
      · rw [if_neg hm] at h'
        rcases List.mem_append.1 h' with h'' | h''
        · exact Or.inl h''
        · simp at h''
          exact Or.inr (by simp [h''])
    · exact Or.inr (List.mem_cons_of_mem _ h')

theorem cbFold_keys_mem (l : List ScoredRec) :
    ∀ (st : List (String × ℚ) ×
      List (String × (Option String × Option ℚ))) (k : String),
    k ∈ dictKeys (l.foldl cbMergeStep st).1 →
    k ∈ dictKeys st.1 ∨ k ∈ l.map (·.business_id) := by
  induction l with
  | nil => intro st k h; exact Or.inl h
  | cons a l' ih =>
    intro st k h
    rw [List.foldl_cons] at h
    rcases ih _ k h with h' | h'
    · rw [cbMergeStep] at h'
      rcases hl : dictLookup st.1 a.business_id with _ | v
      · rw [hl] at h'
        simp only [] at h'
        rw [dictKeys_append_single] at h'
        rcases List.mem_append.1 h' with h'' | h''
        · exact Or.inl h''
        · simp at h''
          exact Or.inr (by simp [h''])
      · rw [hl] at h'
        simp only [] at h'
        rw [dictKeys_dictSet] at h'
        by_cases hm : a.business_id ∈ dictKeys st.1
        · rw [if_pos hm] at h'
          exact Or.inl h'
        · rw [if_neg hm] at h'
          rcases List.mem_append.1 h' with h'' | h''
          · exact Or.inl h''
          · simp at h''
            exact Or.inr (by simp [h''])
    · exact Or.inr (List.mem_cons_of_mem _ h')

/-- The merged score of a business id after both merge loops, as a function
of its first occurrence in each stage list. -/
theorem combined_lookup (cf cb : List ScoredRec) (k : String)
    (hcf : (cf.map (·.business_id)).Nodup)
    (hcb : (cb.map (·.business_id)).Nodup) :
    dictLookup (cb.foldl cbMergeStep (cf.foldl cfMergeStep ([], []))).1 k =
      match cf.find? (fun r => r.business_id == k),
          cb.find? (fun r => r.business_id == k) with
      | some r1, some r2 =>
          some (mkRat 7 10 * r1.score + mkRat 3 10 * r2.score)
      | some r1, none => some (mkRat 7 10 * r1.score)
      | none, some r2 => some (mkRat 3 10 * r2.score)
      | none, none => none := by
  rcases h1 : cf.find? (fun r => r.business_id == k) with _ | r1 <;>
    rcases h2 : cb.find? (fun r => r.business_id == k) with _ | r2
  · rw [cbFold_lookup_not_mem _ _ k
      (fun r hr hk => absurd (by simp [hk]) (List.find?_eq_none.1 h2 r hr))]
    rw [cfFold_lookup_not_mem _ _ k
      (fun r hr hk => absurd (by simp [hk]) (List.find?_eq_none.1 h1 r hr))]
    rw [h1, h2]
    simp [dictLookup_nil]
  · rw [cbFold_lookup_found _ _ k r2 hcb h2]
    rw [cfFold_lookup_not_mem _ _ k
      (fun r hr hk => absurd (by simp [hk]) (List.find?_eq_none.1 h1 r hr))]
    rw [h1, h2]
    simp [dictLookup_nil]
  · rw [cbFold_lookup_not_mem _ _ k
      (fun r hr hk => absurd (by simp [hk]) (List.find?_eq_none.1 h2 r hr))]
    rw [cfFold_lookup_found _ _ k r1 hcf h1, h1, h2]
  · rw [cbFold_lookup_found _ _ k r2 hcb h2]
    rw [cfFold_lookup_found _ _ k r1 hcf h1, h1, h2]

/-! ## The review loop of `build_user_profile` -/

theorem specCatWeight_eq_catContrib (user_id : String) (reviews : List Review)
    (businesses : List BusinessRec) (c : String) :
    specCatWeight user_id reviews businesses c =
      catContrib businesses c (userReviews user_id reviews) := rfl

theorem specCityWeight_eq_cityContrib (user_id : String) (reviews : List Review)
    (businesses : List BusinessRec) (c : String) :
    specCityWeight user_id reviews businesses c =
      cityContrib businesses c (userReviews user_id reviews) := rfl

theorem mem_dictKeys_dictAdd (d : List (String × ℚ)) (k : String) (v : ℚ)
    (c : String) :
    c ∈ dictKeys (dictAdd d k v) ↔ c ∈ dictKeys d ∨ c = k := by
  rw [dictKeys_dictAdd]
  by_cases h : k ∈ dictKeys d
  · rw [if_pos h]
    constructor
    · exact Or.inl
    · rintro (hc | rfl)
      · exact hc
      · exact h
  · rw [if_neg h]
    simp [List.mem_append]

theorem profileStep_lookup_cat (businesses : List BusinessRec)
    (st : List (String × ℚ) × List (String × ℚ)) (r : Review) (c : String) :
    (dictLookup (profileStep businesses st r).1 c).getD 0 =
      (dictLookup st.1 c).getD 0 +
        (if specCatOf businesses r = some c then r.rating else 0) := by
  unfold profileStep specCatOf
  cases hr : resolveBusiness businesses r.business_id with
  | none => simp
  | some b =>
    cases hcat : b.category with
    | none => simp [hcat]
    | some c0 =>
      simp only [hcat, Option.some_bind]
      rw [dictLookup_dictAdd]
      by_cases hcc : c = c0
      · subst hcc
        simp
      · simp [hcc, Ne.symm hcc]

theorem profileStep_lookup_city (businesses : List BusinessRec)
    (st : List (String × ℚ) × List (String × ℚ)) (r : Review) (c : String) :
    (dictLookup (profileStep businesses st r).2 c).getD 0 =
      (dictLookup st.2 c).getD 0 +
        (if specCityOf businesses r = some c then r.rating else 0) := by
  unfold profileStep specCityOf
  cases hr : resolveBusiness businesses r.business_id with
  | none => simp
  | some b =>
    cases hcity : b.city with
    | none => simp [hcity]
    | some c0 =>
      simp only [hcity, Option.some_bind]
      rw [dictLookup_dictAdd]
      by_cases hcc : c = c0
      · subst hcc
        simp
      · simp [hcc, Ne.symm hcc]

theorem profileStep_keys_cat (businesses : List BusinessRec)
    (st : List (String × ℚ) × List (String × ℚ)) (r : Review) (c : String) :
    c ∈ dictKeys (profileStep businesses st r).1 ↔
      c ∈ dictKeys st.1 ∨ specCatOf businesses r = some c := by
  unfold profileStep specCatOf
  cases hr : resolveBusiness businesses r.business_id with
  | none => simp
  | some b =>
    cases hcat : b.category with
    | none => simp [hcat]
    | some c0 =>
      simp only [hcat, Option.some_bind]
      rw [mem_dictKeys_dictAdd]
      simp [eq_comm]

theorem profileStep_keys_city (businesses : List BusinessRec)
    (st : List (String × ℚ) × List (String × ℚ)) (r : Review) (c : String) :
    c ∈ dictKeys (profileStep businesses st r).2 ↔
      c ∈ dictKeys st.2 ∨ specCityOf businesses r = some c := by
  unfold profileStep specCityOf
  cases hr : resolveBusiness businesses r.business_id with
  | none => simp
  | some b =>
    cases hcity : b.city with
    | none => simp [hcity]
    | some c0 =>
      simp only [hcity, Option.some_bind]
      rw [mem_dictKeys_dictAdd]
      simp [eq_comm]

theorem profileFold_lookup (businesses : List BusinessRec) (rs : List Review) :
    ∀ (st : List (String × ℚ) × List (String × ℚ)) (c : String),
      (dictLookup (rs.foldl (profileStep businesses) st).1 c).getD 0 =
        (dictLookup st.1 c).getD 0 + catContrib businesses c rs ∧
      (dictLookup (rs.foldl (profileStep businesses) st).2 c).getD 0 =
        (dictLookup st.2 c).getD 0 + cityContrib businesses c rs := by
  induction rs with
  | nil => intro st c; simp [catContrib, cityContrib]
  | cons r rs ih =>
    intro st c
    rw [List.foldl_cons]
    have hcontrib : catContrib businesses c (r :: rs) =
        (if specCatOf businesses r = some c then r.rating else 0) +
          catContrib businesses c rs := by
      unfold catContrib
      by_cases h : specCatOf businesses r = some c
      · rw [List.filter_cons_of_pos (by simp [h]), List.map_cons,
          List.sum_cons, if_pos h]
      · rw [List.filter_cons_of_neg (by simp [h]), if_neg h, zero_add]
    have hcontrib' : cityContrib businesses c (r :: rs) =
        (if specCityOf businesses r = some c then r.rating else 0) +
          cityContrib businesses c rs := by
      unfold cityContrib
      by_cases h : specCityOf businesses r = some c
      · rw [List.filter_cons_of_pos (by simp [h]), List.map_cons,
          List.sum_cons, if_pos h]
      · rw [List.filter_cons_of_neg (by simp [h]), if_neg h, zero_add]
    constructor
    · rw [(ih _ c).1, profileStep_lookup_cat, hcontrib]
      ring
    · rw [(ih _ c).2, profileStep_lookup_city, hcontrib']
      ring

theorem profileFold_keys (businesses : List BusinessRec) (rs : List Review) :
    ∀ (st : List (String × ℚ) × List (String × ℚ)) (c : String),
      (c ∈ dictKeys (rs.foldl (profileStep businesses) st).1 ↔
        c ∈ dictKeys st.1 ∨ ∃ r ∈ rs, specCatOf businesses r = some c) ∧
      (c ∈ dictKeys (rs.foldl (profileStep businesses) st).2 ↔
        c ∈ dictKeys st.2 ∨ ∃ r ∈ rs, specCityOf businesses r = some c) := by
  induction rs with
  | nil => intro st c; simp
  | cons r rs ih =>
    intro st c
    rw [List.foldl_cons]
    constructor
    · rw [(ih _ c).1, profileStep_keys_cat]
      constructor
      · rintro ((h | h) | ⟨r', hr', h⟩)
        · exact Or.inl h
        · exact Or.inr ⟨r, List.mem_cons_self _ _, h⟩
        · exact Or.inr ⟨r', List.mem_cons_of_mem _ hr', h⟩
      · rintro (h | ⟨r', hr', h⟩)
        · exact Or.inl (Or.inl h)
        · rcases List.mem_cons.1 hr' with rfl | hr'
          · exact Or.inl (Or.inr h)
          · exact Or.inr ⟨r', hr', h⟩
    · rw [(ih _ c).2, profileStep_keys_city]
      constructor
      · rintro ((h | h) | ⟨r', hr', h⟩)
        · exact Or.inl h
        · exact Or.inr ⟨r, List.mem_cons_self _ _, h⟩
        · exact Or.inr ⟨r', List.mem_cons_of_mem _ hr', h⟩
      · rintro (h | ⟨r', hr', h⟩)
        · exact Or.inl (Or.inl h)
        · rcases List.mem_cons.1 hr' with rfl | hr'
          · exact Or.inl (Or.inr h)
          · exact Or.inr ⟨r', hr', h⟩

theorem profileFold_nodup (businesses : List BusinessRec) (rs : List Review) :
    ∀ (st : List (String × ℚ) × List (String × ℚ)),
      (dictKeys st.1).Nodup → (dictKeys st.2).Nodup →
      (dictKeys (rs.foldl (profileStep businesses) st).1).Nodup ∧
      (dictKeys (rs.foldl (profileStep businesses) st).2).Nodup := by
  induction rs with
  | nil => intro st h1 h2; exact ⟨h1, h2⟩
  | cons r rs ih =>
    intro st h1 h2
    rw [List.foldl_cons]
    refine ih _ ?_ ?_
    · unfold profileStep
      cases resolveBusiness businesses r.business_id with
      | none => exact h1
      | some b =>
        dsimp only
        cases b.category with
        | none => exact h1
        | some c0 => exact nodup_dictAdd _ _ _ h1
    · unfold profileStep
      cases resolveBusiness businesses r.business_id with
      | none => exact h2
      | some b =>
        dsimp only
        cases b.city with
        | none => exact h2
        | some c0 => exact nodup_dictAdd _ _ _ h2

/-! ## Claim theorems -/

/-- C3: for every user and every `top_n ≥ 1`, the recommendation list
returned by `recommend_for_user` has length at most `top_n`. -/
theorem recommend_for_user_length_le (cf : Option CFModel)
    (cm : Option ContentModel) (reviews : List Review)
    (businesses : List BusinessRec) (user_id : String) (top_n : ℕ)
    (h : 1 ≤ top_n) :
    (recommend_for_user cf cm reviews businesses user_id
      top_n).recommendations.length ≤ top_n := by
  unfold recommend_for_user
  dsimp only
  split
  · simp
  · split
    · simp
    · simp only [List.length_map]
      exact List.length_take_le _ _

/-- Witness for C3 at a concrete run. -/
theorem recommend_for_user_length_le_witness :
    1 ≤ 2 ∧
    (recommend_for_user cfEx cmEx reviewsEx businessesEx "U1"
      2).recommendations.length ≤ 2 :=
  ⟨by decide,
   recommend_for_user_length_le cfEx cmEx reviewsEx businessesEx "U1" 2
     (by decide)⟩

/-- Counterexample to C5 as stated: a missing category or city is replaced
by the placeholder token `'Unknown'`, not by the empty string, so the
document of an all-missing business is not the one the claim predicts. -/
theorem fit_document_unknown_cex :
    fitCorpus [bMissing] = ["Name Unknown  Unknown"] ∧
    fitCorpus [bMissing] ≠
      [bMissing.name ++ " " ++ "" ++ " " ++ "" ++ " " ++ ""] := by decide

/-- C5 as amended: the document built for each business at fit time is
`name + ' ' + category + ' ' + description + ' ' + city` where a missing
description becomes the empty string but a missing category or city becomes
the literal `'Unknown'`; one document is built per business row, so a
missing field never aborts fitting. -/
theorem fit_document_spec (businesses : List BusinessRec) (b : BusinessRec)
    (hb : b ∈ businesses) :
    (b.name ++ " " ++ b.category.getD "Unknown" ++ " " ++
        b.description.getD "" ++ " " ++ b.city.getD "Unknown") ∈
      fitCorpus businesses ∧
    (fitCorpus businesses).length = businesses.length := by
  constructor
  · refine List.mem_map.2 ⟨b, hb, ?_⟩
    unfold contentText fillMissing
    cases b.category <;> cases b.description <;> cases b.city <;> simp
  · simp [fitCorpus]

/-- Witness for the amended C5 at the all-missing business row. -/
theorem fit_document_spec_witness :
    bMissing ∈ [bMissing] ∧
    (bMissing.name ++ " " ++ bMissing.category.getD "Unknown" ++ " " ++
        bMissing.description.getD "" ++ " " ++ bMissing.city.getD "Unknown") ∈
      fitCorpus [bMissing] ∧
    (fitCorpus [bMissing]).length = [bMissing].length :=
  ⟨by decide,
   (fit_document_spec [bMissing] bMissing (by decide)).1,
   (fit_document_spec [bMissing] bMissing (by decide)).2⟩

/-- Counterexample to C6 as stated: on an empty business feed `train_model`
does not signal any failure to its caller; it completes normally, merely
without fitting anything. -/
theorem train_model_no_failure_cex :
    (train_model [] []).isFailure = false ∧
    train_model [] [] ≠ TrainResult.completed true := by decide

/-- C6 as amended: with fewer than 10 reviews or fewer than 5 businesses,
`train_model` fits and saves nothing, but it returns normally (logging a
warning) instead of raising an InsufficientDataError-class failure, so its
caller observes a success-shaped completion. -/
theorem train_model_insufficient (reviews : List Review)
    (businesses : List BusinessRec)
    (h : reviews.length < 10 ∨ businesses.length < 5) :
    train_model reviews businesses = TrainResult.completed false ∧
    (train_model reviews businesses).isFailure = false := by
  unfold train_model
  rcases h with h | h <;> simp [h, TrainResult.isFailure]

/-- Witness for the amended C6 on the empty feeds. -/
theorem train_model_insufficient_witness :
    ((List.length ([] : List Review) < 10 ∨
        List.length ([] : List BusinessRec) < 5)) ∧
    (train_model [] [] = TrainResult.completed false ∧
      (train_model [] []).isFailure = false) :=
  ⟨by decide, train_model_insufficient [] [] (by decide)⟩

/-- C10: the query business is dropped only after the candidate list is
truncated to the `top_n` top-similarity indices, so whenever the query's own
index survives that truncation the call returns at most `top_n - 1`
businesses, even if more are indexed. -/
theorem recommend_similar_truncates_first (m : ContentModel) (bid : String)
    (top_n idx : ℕ) (hidx : businessIndex m bid = some idx)
    (hmem : idx ∈ topIndicesDesc (m.simMatrix.getD idx []) top_n) :
    (recommend_similar_businesses m bid top_n).length ≤ top_n - 1 := by
  unfold recommend_similar_businesses
  rw [hidx]
  dsimp only
  rw [List.length_map]
  have h1 : (((topIndicesDesc (m.simMatrix.getD idx []) top_n).filter
      (fun i => i ≠ idx)).take top_n).length ≤
      ((topIndicesDesc (m.simMatrix.getD idx []) top_n).filter
        (fun i => i ≠ idx)).length := by
    rw [List.length_take]
    exact Nat.min_le_right _ _
  have h2 : ((topIndicesDesc (m.simMatrix.getD idx []) top_n).filter
      (fun i => i ≠ idx)).length <
      (topIndicesDesc (m.simMatrix.getD idx []) top_n).length := by
    refine Nat.lt_of_le_of_ne (List.length_filter_le _ _) (fun heq => ?_)
    have := List.filter_length_eq_length.1 heq idx hmem
    simp at this
  exact le_trans h1 (Nat.le_sub_one_of_lt
    (Nat.lt_of_lt_of_le h2 (topIndicesDesc_length_le _ _)))

/-- Witness for C10: three businesses are indexed, yet the query for the
top 2 similar to `B0` returns a single business. -/
theorem recommend_similar_truncates_first_witness :
    businessIndex cmSim "B0" = some 0 ∧
    0 ∈ topIndicesDesc (cmSim.simMatrix.getD 0 []) 2 ∧
    cmSim.profiles.length = 3 ∧
    (recommend_similar_businesses cmSim "B0" 2).length ≤ 2 - 1 :=
  ⟨by decide, by decide, by decide,
   recommend_similar_truncates_first cmSim "B0" 2 0 (by decide) (by decide)⟩

/-- Counterexample to C4 as stated: with three businesses indexed, the top-2
query for `B0` returns a single business; `B2` (similarity 4/5, the second
highest excluding the query itself) is missing because the query business is
removed only after truncation. -/
theorem recommend_similar_top_cex :
    recommend_similar_businesses cmSim "B0" 2 = [("B1", mkRat 9 10)] ∧
    "B2" ∈ cmSim.profiles.map (·.business_id) ∧
    "B2" ∉ (recommend_similar_businesses cmSim "B0" 2).map Prod.fst := by
  decide

/-- C4 as amended: `recommend_similar_businesses` returns at most `top_n`
businesses drawn from the `top_n` highest-similarity indices with the query
business dropped (so possibly omitting the `top_n`-th ranked other
business); the query business never appears in the output, and an id absent
from the index yields the empty list rather than an error. -/
theorem recommend_similar_spec (m : ContentModel) (bid : String)
    (top_n : ℕ) (hWF : m.WF)
    (hnd : (m.profiles.map (·.business_id)).Nodup) :
    (businessIndex m bid = none →
      recommend_similar_businesses m bid top_n = []) ∧
    (∀ pr ∈ recommend_similar_businesses m bid top_n, pr.1 ≠ bid) ∧
    (recommend_similar_businesses m bid top_n).length ≤ top_n := by
  refine ⟨?_, ?_, ?_⟩
  · intro h
    unfold recommend_similar_businesses
    rw [h]
  · intro pr hpr
    unfold recommend_similar_businesses at hpr
    cases hidx : businessIndex m bid with
    | none => rw [hidx] at hpr; simp at hpr
    | some idx =>
      rw [hidx] at hpr
      dsimp only at hpr
      rcases List.mem_map.1 hpr with ⟨i, hi, rfl⟩
      have hi2 : i ∈ (topIndicesDesc (m.simMatrix.getD idx []) top_n).filter
          (fun j => j ≠ idx) := (List.take_sublist _ _).mem hi
      have hi3 := List.mem_filter.1 hi2
      have hneq : i ≠ idx := by simpa using hi3.2
      have hitop : i ∈ topIndicesDesc (m.simMatrix.getD idx []) top_n := hi3.1
      rcases List.findIdx?_eq_some_iff_getElem.1 hidx with ⟨hlt, hPidx, _⟩
      have hidxlt : idx < m.profiles.length := by simpa using hlt
      have hrowlen : (m.simMatrix.getD idx []).length = m.profiles.length := by
        have hidx2 : idx < m.simMatrix.length := by rw [hWF.1]; exact hidxlt
        rw [List.getD_eq_getElem _ _ hidx2]
        exact hWF.2.1 _ (List.getElem_mem _)
      have hilt : i < m.profiles.length := by
        rw [← hrowlen]
        exact mem_topIndicesDesc_lt hitop
      intro heq
      have hilt2 : i < (m.profiles.map (·.business_id)).length := by
        simpa using hilt
      have hidbid : (m.profiles.map (·.business_id))[idx] = bid := by
        simpa using hPidx
      have hidi : (m.profiles.map (·.business_id))[i] = bid := by
        rw [List.getElem_map]
        rw [List.getD_eq_getElem _ _ hilt] at heq
        exact heq
      exact hneq (hnd.getElem_inj_iff.1 (hidi.trans hidbid.symm))
  · unfold recommend_similar_businesses
    cases hidx : businessIndex m bid with
    | none => simp
    | some idx =>
      dsimp only
      rw [List.length_map, List.length_take]
      exact Nat.min_le_left _ _

/-- Witness for the amended C4: the indexed query `B0` never appears in its
own similarity output, and the unknown id `BX` yields the empty list. -/
theorem recommend_similar_spec_witness :
    cmSim.WF ∧ (cmSim.profiles.map (·.business_id)).Nodup ∧
    (∀ pr ∈ recommend_similar_businesses cmSim "B0" 3, pr.1 ≠ "B0") ∧
    (businessIndex cmSim "BX" = none →
      recommend_similar_businesses cmSim "BX" 3 = []) :=
  ⟨⟨rfl, by decide, fun _ => rfl⟩, by decide,
   (recommend_similar_spec cmSim "B0" 3 ⟨rfl, by decide, fun _ => rfl⟩
     (by decide)).2.1,
   (recommend_similar_spec cmSim "BX" 3 ⟨rfl, by decide, fun _ => rfl⟩
     (by decide)).1⟩

unseal Rat.mul Rat.add Rat.sub in
/-- Counterexample to C2 as stated: user `U1` has rated `B1`, yet the hybrid
recommendation list contains `B1`, reintroduced by the content stage, which
does not exclude rated businesses. -/
theorem hybrid_returns_rated_cex :
    "B1" ∈ ((recommend_for_user cfEx cmEx reviewsEx businessesEx "U1"
        2).recommendations.map (·.business_id)) ∧
    "B1" ∈ ((reviewsEx.filter (fun r => r.user_id == "U1")).map
        (·.business_id)) := by decide

set_option maxHeartbeats 1000000 in
/-- C2 as amended: the collaborative stage never returns a business the
user has already rated (its candidate set is the complement of the rated
set); the hybrid list as a whole does not have this property, because the
content stage can reintroduce rated businesses. -/
theorem collaborative_excludes_rated (cf : Option CFModel)
    (reviews : List Review) (businesses : List BusinessRec)
    (user_id : String) (top_n : ℕ) (b : String)
    (hb : b ∈ (get_collaborative_recommendations cf reviews businesses
      user_id top_n).map (·.business_id)) :
    b ∉ (reviews.filter (fun r => r.user_id == user_id)).map
      (·.business_id) := by
  unfold get_collaborative_recommendations at hb
  rcases cf with _ | model
  · simp at hb
  · dsimp only at hb
    split at hb
    · simp at hb
    · split at hb
      · simp at hb
      · rcases List.mem_map.1 hb with ⟨r, hr, rfl⟩
        have hr2 := (List.take_sublist _ _).mem hr
        have hr3 := (sortByKeyDesc_perm (fun x : ScoredRec => x.score) _).mem_iff.1 hr2
        rcases List.mem_filterMap.1 hr3 with ⟨c, hc, hfc⟩
        rcases Option.map_eq_some'.1 hfc with ⟨bd, _, hmk⟩
        have hid : r.business_id = c := by rw [← hmk]
        rw [hid]
        have hflt := List.mem_filter.1 hc
        have hnotc : c ∉ uniqueFirst
            ((reviews.filter (fun r => r.user_id == user_id)).map
              (·.business_id)) := by
          simpa using hflt.2
        exact fun hmem => hnotc ((mem_uniqueFirst _ _).2 hmem)

/-- Witness for the amended C2 at a concrete run: the unrated `B2` is
recommended by the collaborative stage and is indeed not rated by `U1`. -/
theorem collaborative_excludes_rated_witness :
    ("B2" ∈ (get_collaborative_recommendations cfEx reviewsEx businessesEx
      "U1" 4).map (·.business_id)) ∧
    "B2" ∉ ((reviewsEx.filter (fun r => r.user_id == "U1")).map
      (·.business_id)) :=
  ⟨by decide,
   collaborative_excludes_rated cfEx reviewsEx businessesEx "U1" 4 "B2"
     (by decide)⟩

/-- C7: a user with zero reviews gets an empty profile, the content stage
yields nothing (for any requested size), and the hybrid result (which never
raises: the embedding is a total function) is drawn from the collaborative
stage alone. -/
theorem zero_review_user_profile (cf : Option CFModel)
    (cm : Option ContentModel) (reviews : List Review)
    (businesses : List BusinessRec) (user_id : String) (top_n : ℕ)
    (h : ∀ r ∈ reviews, r.user_id ≠ user_id) :
    build_user_profile user_id reviews businesses = none ∧
    (∀ n, get_content_recommendations cm reviews businesses user_id n = []) ∧
    (∀ b ∈ (recommend_for_user cf cm reviews businesses user_id
        top_n).recommendations.map (·.business_id),
      b ∈ (get_collaborative_recommendations cf reviews businesses user_id
        (top_n * 2)).map (·.business_id)) := by
  have hf : reviews.filter (fun r => r.user_id == user_id) = [] := by
    rw [List.filter_eq_nil_iff]
    intro r hr
    simpa using h r hr
  have hprof : build_user_profile user_id reviews businesses = none := by
    unfold build_user_profile
    rw [hf]
    rfl
  have hcb : ∀ n,
      get_content_recommendations cm reviews businesses user_id n = [] := by
    intro n
    unfold get_content_recommendations
    rcases cm with _ | m
    · rfl
    · dsimp only
      split
      · rfl
      · rw [hprof]
  refine ⟨hprof, hcb, ?_⟩
  intro b hb
  unfold recommend_for_user at hb
  rw [hcb (top_n * 2)] at hb
  dsimp only at hb
  split at hb
  · simp at hb
  · split at hb
    · simp at hb
    · rcases List.mem_map.1 hb with ⟨out, hout, rfl⟩
      rcases List.mem_map.1 hout with ⟨pr, hpr, rfl⟩
      have hpr2 := (List.take_sublist _ _).mem hpr
      have hpr3 :=
        (sortByKeyDesc_perm (fun q : String × ℚ => q.2) _).mem_iff.1 hpr2
      have hkey : pr.1 ∈ dictKeys (List.foldl cfMergeStep ([], [])
          (get_collaborative_recommendations cf reviews businesses user_id
            (top_n * 2))).1 := by
        rw [List.foldl_nil] at hpr3
        exact List.mem_map_of_mem _ hpr3
      rcases cfFold_keys_mem _ _ _ hkey with hk | hk
      · simp [dictKeys] at hk
      · simpa using hk

/-- Witness for C7: user `U2` has no reviews in the one-review feed. -/
theorem zero_review_user_profile_witness :
    (∀ r ∈ reviewsEx, r.user_id ≠ "U2") ∧
    (build_user_profile "U2" reviewsEx businessesEx = none ∧
     (∀ n, get_content_recommendations cmEx reviewsEx businessesEx "U2" n
        = []) ∧
     (∀ b ∈ (recommend_for_user cfEx cmEx reviewsEx businessesEx "U2"
         3).recommendations.map (·.business_id),
       b ∈ (get_collaborative_recommendations cfEx reviewsEx businessesEx
         "U2" (3 * 2)).map (·.business_id))) :=
  ⟨by decide,
   zero_review_user_profile cfEx cmEx reviewsEx businessesEx "U2" 3
     (by decide)⟩

/-- C1: every business in the hybrid list carries the score
`round(0.7*s1 + 0.3*s2, 2)`, where `s1` is its collaborative-stage score
(0 when it only came from the content stage) and `s2` its content-stage
score (0 when it only came from the collaborative stage).  The stage lists
carry no duplicate ids, which the hypotheses record. -/
theorem hybrid_merge_weights (cf : Option CFModel) (cm : Option ContentModel)
    (reviews : List Review) (businesses : List BusinessRec)
    (user_id : String) (top_n : ℕ) (out : BusinessOut)
    (hcf : ((get_collaborative_recommendations cf reviews businesses user_id
      (top_n * 2)).map (·.business_id)).Nodup)
    (hcb : ((get_content_recommendations cm reviews businesses user_id
      (top_n * 2)).map (·.business_id)).Nodup)
    (hout : out ∈ (recommend_for_user cf cm reviews businesses user_id
      top_n).recommendations) :
    out.predicted_rating = pyRound2 (
      mkRat 7 10 * scoreOf (get_collaborative_recommendations cf reviews
        businesses user_id (top_n * 2)) out.business_id +
      mkRat 3 10 * scoreOf (get_content_recommendations cm reviews
        businesses user_id (top_n * 2)) out.business_id) := by
  unfold recommend_for_user at hout
  dsimp only at hout
  split at hout
  · simp at hout
  · split at hout
    · simp at hout
    · rcases List.mem_map.1 hout with ⟨pr, hpr, rfl⟩
      dsimp only
      have hpr2 := (List.take_sublist _ _).mem hpr
      have hpr3 :=
        (sortByKeyDesc_perm (fun q : String × ℚ => q.2) _).mem_iff.1 hpr2
      have hnd : (dictKeys (List.foldl cbMergeStep
          (List.foldl cfMergeStep ([], [])
            (get_collaborative_recommendations cf reviews businesses user_id
              (top_n * 2)))
          (get_content_recommendations cm reviews businesses user_id
            (top_n * 2))).1).Nodup :=
        cbFold_keys_nodup _ _ (cfFold_keys_nodup _ _ (by simp [dictKeys]))
      have hlk := dictLookup_of_mem hnd hpr3
      rw [combined_lookup _ _ _ hcf hcb] at hlk
      unfold scoreOf
      rcases h1 : (get_collaborative_recommendations cf reviews businesses
          user_id (top_n * 2)).find? (fun r => r.business_id == pr.1)
        with _ | r1 <;>
        rcases h2 : (get_content_recommendations cm reviews businesses
            user_id (top_n * 2)).find? (fun r => r.business_id == pr.1)
          with _ | r2 <;>
        rw [h1, h2] at hlk ⊢
      · exact absurd hlk (by simp)
      · have : pr.2 = mkRat 3 10 * r2.score := by
          simpa using hlk.symm
        rw [this, mul_zero, zero_add]
      · have : pr.2 = mkRat 7 10 * r1.score := by
          simpa using hlk.symm
        rw [this, mul_zero, add_zero]
      · have : pr.2 = mkRat 7 10 * r1.score + mkRat 3 10 * r2.score := by
          simpa using hlk.symm
        rw [this]

unseal Rat.mul Rat.add Rat.sub in
/-- Witness for C1 at a concrete run: `B1` appears in both stages (content
score 9/10, collaborative absent since it is rated), `B2` in both lists, and
the recommended entry for `B1` carries `round(0.7*0 + 0.3*(9/10), 2) =
0.27`. -/
theorem hybrid_merge_weights_witness :
    (((get_collaborative_recommendations cfEx reviewsEx businessesEx "U1"
      (2 * 2)).map (·.business_id)).Nodup) ∧
    (((get_content_recommendations cmEx reviewsEx businessesEx "U1"
      (2 * 2)).map (·.business_id)).Nodup) ∧
    (BusinessOut.mk "B1" (some "Cafe") (some 4) (mkRat 27 100) ∈
      (recommend_for_user cfEx cmEx reviewsEx businessesEx "U1"
        2).recommendations) ∧
    (BusinessOut.mk "B1" (some "Cafe") (some 4)
        (mkRat 27 100)).predicted_rating = pyRound2 (
      mkRat 7 10 * scoreOf (get_collaborative_recommendations cfEx reviewsEx
        businessesEx "U1" (2 * 2)) "B1" +
      mkRat 3 10 * scoreOf (get_content_recommendations cmEx reviewsEx
        businessesEx "U1" (2 * 2)) "B1") :=
  ⟨by decide, by decide, by decide,
   hybrid_merge_weights cfEx cmEx reviewsEx businessesEx "U1" 2
     (BusinessOut.mk "B1" (some "Cafe") (some 4) (mkRat 27 100))
     (by decide) (by decide) (by decide)⟩

/-- Recovering a fit-time index from the business id it carries: with
duplicate-free ids, `business_indices` maps the id of row `i` back to `i`. -/
theorem businessIndex_getD (m : ContentModel)
    (hnd : (m.profiles.map (·.business_id)).Nodup) (i : ℕ)
    (hi : i < m.profiles.length) :
    businessIndex m ((m.profiles.getD i default).business_id) = some i := by
  unfold businessIndex
  rw [List.findIdx?_eq_some_iff_getElem]
  have hi2 : i < (m.profiles.map (·.business_id)).length := by simpa using hi
  refine ⟨hi2, ?_, ?_⟩
  · rw [List.getElem_map, List.getD_eq_getElem _ _ hi]
    simp
  · intro j hj
    have hj2 : j < (m.profiles.map (·.business_id)).length :=
      Nat.lt_trans hj hi2
    rw [List.getD_eq_getElem _ _ hi]
    simp only [List.getElem_map, Bool.not_eq_true, beq_eq_false_iff_ne,
      ne_eq]
    intro heq
    have : j = i := (@List.Nodup.getElem_inj_iff _ _ hnd j hj2 i hi2).1 (by
      rw [List.getElem_map, List.getElem_map]
      exact heq)
    exact Nat.ne_of_lt hj this

/-- Counterexample to C9 as stated: businesses `T0` and `T1` (fit-time
indices 0 and 1) have the same similarity score 1/2, yet the ranking lists
`T1` before `T0` - the reverse of first-seen corpus order, which the claim
predicts. -/
theorem content_tie_order_cex :
    recommend_for_user_profile cmTie (some pTie) 3 =
      [("T2", mkRat 9 10), ("T1", mkRat 1 2), ("T0", mkRat 1 2)] ∧
    recommend_for_user_profile cmTie (some pTie) 3 ≠
      [("T2", mkRat 9 10), ("T0", mkRat 1 2), ("T1", mkRat 1 2)] := by
  decide

/-- C9 as amended: in the rankings of `recommend_for_user_profile` and
`recommend_similar_businesses`, equal-similarity businesses appear in
reverse fit-time corpus order (the ascending stable argsort is traversed in
reverse), and the ranking is still deterministic, so repeated calls on the
same fitted index reproduce the identical ordering. -/
theorem content_tie_order (m : ContentModel) (p : Option UserProfile)
    (bid : String) (top_n : ℕ) (hWF : m.WF)
    (hnd : (m.profiles.map (·.business_id)).Nodup) :
    ((recommend_for_user_profile m p top_n).Pairwise (fun a b =>
      b.2 < a.2 ∨ (a.2 = b.2 ∧ ∃ i j, businessIndex m a.1 = some i ∧
        businessIndex m b.1 = some j ∧ j < i))) ∧
    ((recommend_similar_businesses m bid top_n).Pairwise (fun a b =>
      b.2 < a.2 ∨ (a.2 = b.2 ∧ ∃ i j, businessIndex m a.1 = some i ∧
        businessIndex m b.1 = some j ∧ j < i))) := by
  have key : ∀ (ss : List ℚ), ss.length = m.profiles.length →
      ∀ (idxs : List ℕ),
      idxs.Pairwise (fun i j => ss.getD j 0 < ss.getD i 0 ∨
        (ss.getD i 0 = ss.getD j 0 ∧ j < i)) →
      (∀ i ∈ idxs, i < ss.length) →
      (idxs.map (fun i => ((m.profiles.getD i default).business_id,
        ss.getD i 0))).Pairwise (fun a b =>
          b.2 < a.2 ∨ (a.2 = b.2 ∧ ∃ i j, businessIndex m a.1 = some i ∧
            businessIndex m b.1 = some j ∧ j < i)) := by
    intro ss hss idxs hpw hmem
    refine List.pairwise_map.2 (List.Pairwise.imp_of_mem ?_ hpw)
    intro i j hi hj hr
    rcases hr with h | ⟨heq, hlt⟩
    · exact Or.inl h
    · exact Or.inr ⟨heq, i, j,
        businessIndex_getD m hnd i (hss ▸ hmem i hi),
        businessIndex_getD m hnd j (hss ▸ hmem j hj), hlt⟩
  constructor
  · rcases p with _ | prof
    · exact List.Pairwise.nil
    · unfold recommend_for_user_profile
      dsimp only
      split
      · exact List.Pairwise.nil
      · exact key _ (hWF.2.2 _) _ (topIndicesDesc_pairwise _ _)
          (fun i hi => mem_topIndicesDesc_lt hi)
  · unfold recommend_similar_businesses
    cases hidx : businessIndex m bid with
    | none => exact List.Pairwise.nil
    | some idx =>
      dsimp only
      have hrowlen : (m.simMatrix.getD idx []).length =
          m.profiles.length := by
        rcases List.findIdx?_eq_some_iff_getElem.1 hidx with ⟨hlt, _, _⟩
        have hidx2 : idx < m.simMatrix.length := by
          rw [hWF.1]; simpa using hlt
        rw [List.getD_eq_getElem _ _ hidx2]
        exact hWF.2.1 _ (List.getElem_mem _)
      refine key _ hrowlen _ ?_ ?_
      · exact ((topIndicesDesc_pairwise _ _).sublist
          (List.filter_sublist _)).sublist (List.take_sublist _ _)
      · intro i hi
        have := (List.take_sublist _ _).mem hi
        exact mem_topIndicesDesc_lt (List.mem_filter.1 this).1

/-- Witness for the amended C9 at the tied index `cmTie`. -/
theorem content_tie_order_witness :
    cmTie.WF ∧ (cmTie.profiles.map (·.business_id)).Nodup ∧
    ((recommend_for_user_profile cmTie (some pTie) 3).Pairwise (fun a b =>
      b.2 < a.2 ∨ (a.2 = b.2 ∧ ∃ i j, businessIndex cmTie a.1 = some i ∧
        businessIndex cmTie b.1 = some j ∧ j < i))) ∧
    ((recommend_similar_businesses cmTie "T0" 3).Pairwise (fun a b =>
      b.2 < a.2 ∨ (a.2 = b.2 ∧ ∃ i j, businessIndex cmTie a.1 = some i ∧
        businessIndex cmTie b.1 = some j ∧ j < i))) :=
  ⟨⟨rfl, by decide, fun _ => rfl⟩, by decide,
   (content_tie_order cmTie (some pTie) "T0" 3
     ⟨rfl, by decide, fun _ => rfl⟩ (by decide)).1,
   (content_tie_order cmTie (some pTie) "T0" 3
     ⟨rfl, by decide, fun _ => rfl⟩ (by decide)).2⟩

/-- C8: for a user with at least one review, `build_user_profile` returns a
profile whose `preferred_categories` (resp. `preferred_cities`) is the
space-separated join of a duplicate-free list of keys - exactly the
categories (cities) of the user's resolvable reviewed businesses - sorted
by rating-weighted accumulated weight descending, where the weight of a key
is the sum of the ratings the user gave to businesses carrying it
(unresolvable reviews are skipped). -/
theorem build_user_profile_spec (user_id : String) (reviews : List Review)
    (businesses : List BusinessRec)
    (h : reviews.filter (fun r => r.user_id == user_id) ≠ []) :
    ∃ prof cats cities,
      build_user_profile user_id reviews businesses = some prof ∧
      prof.preferred_categories = " ".intercalate cats ∧
      prof.preferred_cities = " ".intercalate cities ∧
      cats.Nodup ∧ cities.Nodup ∧
      (∀ c, c ∈ cats ↔ ∃ r ∈ userReviews user_id reviews,
        specCatOf businesses r = some c) ∧
      (∀ c, c ∈ cities ↔ ∃ r ∈ userReviews user_id reviews,
        specCityOf businesses r = some c) ∧
      cats.Pairwise (fun a b => specCatWeight user_id reviews businesses b ≤
        specCatWeight user_id reviews businesses a) ∧
      cities.Pairwise (fun a b =>
        specCityWeight user_id reviews businesses b ≤
        specCityWeight user_id reviews businesses a) := by
  have hne : ¬ ((reviews.filter (fun r => r.user_id == user_id)).isEmpty
      = true) := by
    simp only [List.isEmpty_iff]
    exact h
  have hwnd := profileFold_nodup businesses
    (reviews.filter (fun r => r.user_id == user_id)) ([], [])
    (by simp [dictKeys]) (by simp [dictKeys])
  have hval1 : ∀ q ∈ sortByKeyDesc (fun q : String × ℚ => q.2)
      ((reviews.filter (fun r => r.user_id == user_id)).foldl
        (profileStep businesses) ([], [])).1,
      q.2 = specCatWeight user_id reviews businesses q.1 := by
    intro q hq
    have hq2 := (sortByKeyDesc_perm (fun q : String × ℚ => q.2) _).mem_iff.1 hq
    have hlk := dictLookup_of_mem hwnd.1 hq2
    have hfold := (profileFold_lookup businesses
      (reviews.filter (fun r => r.user_id == user_id)) ([], []) q.1).1
    rw [hlk] at hfold
    simp only [Option.getD_some, dictLookup_nil, Option.getD_none,
      zero_add] at hfold
    rw [specCatWeight_eq_catContrib]
    exact hfold
  have hval2 : ∀ q ∈ sortByKeyDesc (fun q : String × ℚ => q.2)
      ((reviews.filter (fun r => r.user_id == user_id)).foldl
        (profileStep businesses) ([], [])).2,
      q.2 = specCityWeight user_id reviews businesses q.1 := by
    intro q hq
    have hq2 := (sortByKeyDesc_perm (fun q : String × ℚ => q.2) _).mem_iff.1 hq
    have hlk := dictLookup_of_mem hwnd.2 hq2
    have hfold := (profileFold_lookup businesses
      (reviews.filter (fun r => r.user_id == user_id)) ([], []) q.1).2
    rw [hlk] at hfold
    simp only [Option.getD_some, dictLookup_nil, Option.getD_none,
      zero_add] at hfold
    rw [specCityWeight_eq_cityContrib]
    exact hfold
  unfold build_user_profile
  dsimp only
  rw [if_neg hne]
  refine ⟨_, _, _, rfl, rfl, rfl, ?_, ?_, ?_, ?_, ?_, ?_⟩
  · have hwnd1 : ((((reviews.filter (fun r => r.user_id == user_id)).foldl
        (profileStep businesses) ([], [])).1).map
          (fun q : String × ℚ => q.1)).Nodup := hwnd.1
    exact ((sortByKeyDesc_perm (fun q : String × ℚ => q.2)
      ((reviews.filter (fun r => r.user_id == user_id)).foldl
        (profileStep businesses) ([], [])).1).map
          (fun q : String × ℚ => q.1)).nodup_iff.2 hwnd1
  · have hwnd2 : ((((reviews.filter (fun r => r.user_id == user_id)).foldl
        (profileStep businesses) ([], [])).2).map
          (fun q : String × ℚ => q.1)).Nodup := hwnd.2
    exact ((sortByKeyDesc_perm (fun q : String × ℚ => q.2)
      ((reviews.filter (fun r => r.user_id == user_id)).foldl
        (profileStep businesses) ([], [])).2).map
          (fun q : String × ℚ => q.1)).nodup_iff.2 hwnd2
  · intro c
    have hk : (c ∈ dictKeys ((reviews.filter
        (fun r => r.user_id == user_id)).foldl
          (profileStep businesses) ([], [])).1) ↔
        ∃ r ∈ reviews.filter (fun r => r.user_id == user_id),
          specCatOf businesses r = some c := by
      rw [(profileFold_keys businesses _ ([], []) c).1]
      simp [dictKeys]
    exact (((sortByKeyDesc_perm (fun q : String × ℚ => q.2) _).map
      (·.1)).mem_iff).trans hk
  · intro c
    have hk : (c ∈ dictKeys ((reviews.filter
        (fun r => r.user_id == user_id)).foldl
          (profileStep businesses) ([], [])).2) ↔
        ∃ r ∈ reviews.filter (fun r => r.user_id == user_id),
          specCityOf businesses r = some c := by
      rw [(profileFold_keys businesses _ ([], []) c).2]
      simp [dictKeys]
    exact (((sortByKeyDesc_perm (fun q : String × ℚ => q.2) _).map
      (·.1)).mem_iff).trans hk
  · refine List.pairwise_map.2 (List.Pairwise.imp_of_mem ?_
      (sortByKeyDesc_pairwise (fun q : String × ℚ => q.2) _))
    intro a b ha hb hr
    rw [← hval1 _ ha, ← hval1 _ hb]
    exact hr
  · refine List.pairwise_map.2 (List.Pairwise.imp_of_mem ?_
      (sortByKeyDesc_pairwise (fun q : String × ℚ => q.2) _))
    intro a b ha hb hr
    rw [← hval2 _ ha, ← hval2 _ hb]
    exact hr

/-- Witness for C8 on the three-review feed: `U1` has two resolvable
reviews with distinct categories, cities and weights. -/
theorem build_user_profile_spec_witness :
    (reviewsB.filter (fun r => r.user_id == "U1") ≠ []) ∧
    (∃ prof cats cities,
      build_user_profile "U1" reviewsB businessesEx = some prof ∧
      prof.preferred_categories = " ".intercalate cats ∧
      prof.preferred_cities = " ".intercalate cities ∧
      cats.Nodup ∧ cities.Nodup ∧
      (∀ c, c ∈ cats ↔ ∃ r ∈ userReviews "U1" reviewsB,
        specCatOf businessesEx r = some c) ∧
      (∀ c, c ∈ cities ↔ ∃ r ∈ userReviews "U1" reviewsB,
        specCityOf businessesEx r = some c) ∧
      cats.Pairwise (fun a b => specCatWeight "U1" reviewsB businessesEx b ≤
        specCatWeight "U1" reviewsB businessesEx a) ∧
      cities.Pairwise (fun a b =>
        specCityWeight "U1" reviewsB businessesEx b ≤
        specCityWeight "U1" reviewsB businessesEx a)) :=
  ⟨by decide, build_user_profile_spec "U1" reviewsB businessesEx (by decide)⟩

end RecService
